import Mathlib

/-!
Shallow embedding of the scheduling core of the Spanish-flashcards app
(`src/app.js`, first document): the progress data model, the grade-driven
scheduling function `applyGrade`, the two queue builders, the streak
tracker, and the catalog loader.  JavaScript numbers that the program only
ever combines by +, *, min/max and Math.round on small decimal values are
modelled by `ℚ`; millisecond timestamps by `ℤ`; counters by `ℕ`.
`Math.round` in JavaScript rounds half toward +infinity, which is exactly
Mathlib's `round` on `ℚ`.  The impure `nowMs()` calls become explicit
`now` parameters, and `Math.random()` becomes an explicit stream of
naturals (`rand : ℕ → ℕ`) reduced modulo the relevant bound, mirroring
`Math.floor(Math.random() * n) ∈ [0, n)`.
-/

/-- The four grade strings `again|hard|good|easy` accepted by `applyGrade`
(`src/app.js` line 126). -/
inductive Grade where
  | again
  | hard
  | good
  | easy
  deriving DecidableEq, Repr

/-- A progress record (`src/app.js` `defaultProgress`, lines 111-121):
`dueAt` is an absolute ms timestamp, `intervalDays` and `ease` are
JS floats modelled as rationals, `reps`, `total`, `correct` counters. -/
structure ProgressRecord where
  id : String
  dueAt : Int
  intervalDays : ℚ
  ease : ℚ
  reps : ℕ
  total : ℕ
  correct : ℕ
  deriving DecidableEq, Repr

/-- `clamp(n, lo, hi) = Math.max(lo, Math.min(hi, n))` (`src/app.js` line 123). -/
def clamp (n lo hi : ℚ) : ℚ := max lo (min hi n)

/-- `defaultProgress(id)` (`src/app.js` lines 111-121); the impure
`nowMs()` is the explicit `now` argument. -/
def defaultProgress (id : String) (now : Int) : ProgressRecord :=
  { id := id
    dueAt := now
    intervalDays := 0
    ease := 2.5
    reps := 0
    total := 0
    correct := 0 }

/-- `applyGrade(progress, grade)` (`src/app.js` lines 125-159).  The two
`nowMs()` calls (lines 141 and 157) are on mutually exclusive paths, so a
single `now` parameter stands for whichever one runs.  `Math.max(0, reps-1)`
is truncated subtraction on `ℕ`. -/
def applyGrade (now : Int) (p : ProgressRecord) (g : Grade) : ProgressRecord :=
  let total := p.total + 1
  let correct := if g ≠ Grade.again then p.correct + 1 else p.correct
  let easeDelta : ℚ :=
    if g = Grade.again then -0.20
    else if g = Grade.hard then -0.05
    else if g = Grade.good then 0.00
    else 0.10
  let ease := clamp (p.ease + easeDelta) 1.3 3.2
  if g = Grade.again then
    { p with
      total := total, correct := correct, ease := ease
      reps := p.reps - 1
      intervalDays := 0
      dueAt := now + 10 * 60 * 1000 }
  else
    let intervalDays : ℚ :=
      if p.reps = 0 then
        (if g = Grade.hard then 1 else 1)
      else if p.reps = 1 then
        (if g = Grade.hard then 2 else if g = Grade.easy then 4 else 3)
      else
        let mult : ℚ :=
          if g = Grade.hard then ease * 0.85
          else if g = Grade.easy then ease * 1.15
          else ease
        max 1 (p.intervalDays * mult)
    { p with
      total := total, correct := correct, ease := ease
      intervalDays := intervalDays
      reps := p.reps + 1
      dueAt := now + round (intervalDays * (24 * 60 * 60 * 1000)) }

/-- Iterating `applyGrade` over a finite sequence of grades (the repeated
`applyGrade(p, grade)` calls made by successive `submitGrade` events). -/
def applyGrades (now : Int) (p : ProgressRecord) (gs : List Grade) : ProgressRecord :=
  gs.foldl (applyGrade now) p

/-- A normalized catalog entry as produced by `loadWords`
(`src/app.js` lines 166-171). -/
structure Word where
  id : String
  spanish : String
  english : String
  partOfSpeech : String
  deriving DecidableEq, Repr

/-- A raw catalog entry as fetched from `words.json`: each field may be
absent (`none` models a missing property, i.e. JavaScript `undefined`). -/
structure RawEntry where
  spanish : Option String
  english : Option String
  partOfSpeech : Option String
  deriving DecidableEq, Repr

/-- JavaScript `String(x)` (and template-literal interpolation) on a value
that is either a string or `undefined`. -/
def jsString : Option String → String
  | none => "undefined"
  | some s => s

/-- JavaScript `String.prototype.trim()`: strip leading and trailing
whitespace (modelled on ASCII whitespace, which covers the catalog). -/
def jsTrim (s : String) : String :=
  ⟨((s.data.dropWhile Char.isWhitespace).reverse.dropWhile Char.isWhitespace).reverse⟩

/-- JavaScript `String.prototype.toLowerCase()` (modelled on ASCII case
mapping, which covers the part-of-speech values the code lowercases). -/
def jsToLower (s : String) : String :=
  ⟨s.data.map Char.toLower⟩

/-- JavaScript `x || "other"` on a value that is either a string or
`undefined`: both `undefined` and the empty string are falsy. -/
def jsOrOther : Option String → String
  | none => "other"
  | some s => if s = "" then "other" else s

/-- The normalization of one raw entry performed by `loadWords`
(`src/app.js` lines 166-171).  `nfc` stands for
`String.prototype.normalize("NFC")`; it is applied, as in the source, to
the whole interpolated `id` string (not to the trimmed `spanish` alone),
and the source does not trim the fields used to build the id. -/
def toWord (nfc : String → String) (w : RawEntry) : Word :=
  { id := nfc (jsString w.spanish ++ "__" ++ jsToLower (jsOrOther w.partOfSpeech))
    spanish := jsTrim (jsString w.spanish)
    english := jsTrim (jsString w.english)
    partOfSpeech := jsToLower (jsTrim (jsOrOther w.partOfSpeech)) }

/-- The fetched body of `./words.json`, as seen by `loadWords` after
`resp.json()`: either an array of entries or some non-array JSON value
(on which `raw.map` throws a `TypeError`). -/
inductive JsonVal where
  | arr (entries : List RawEntry)
  | nonArray
  deriving DecidableEq

/-- Outcome of `fetch("./words.json")` followed by `resp.json()`:
the fetch may reject (network error), the body may fail to parse as JSON,
or a JSON value is produced. -/
inductive FetchResult where
  | networkError
  | parseError
  | value (v : JsonVal)
  deriving DecidableEq

/-- The distinct failure modes that propagate out of `loadWords`. -/
inductive LoadError where
  | network
  | parse
  | typeError
  deriving DecidableEq, Repr

/-- `loadWords` (`src/app.js` lines 162-172): a rejected fetch or a JSON
parse failure propagates as an error; a non-array body makes `raw.map`
throw; an array is mapped entrywise by `toWord` with no per-entry
validation. -/
def loadWords (nfc : String → String) : FetchResult → Except LoadError (List Word)
  | .networkError => .error .network
  | .parseError => .error .parse
  | .value .nonArray => .error .typeError
  | .value (.arr raw) => .ok (raw.map (toWord nfc))

/-- `POS_ALL` (`src/app.js` lines 3-6). -/
def POS_ALL : List String :=
  ["noun", "verb", "adjective", "adverb", "preposition", "conjunction",
   "pronoun", "interjection", "determiner", "other"]

/-- Swap of two positions of a list, the effect of
`[due[i], due[j]] = [due[j], due[i]]` (`src/app.js` line 192). -/
def listSwap {α : Type} (l : List α) (i j : Nat) : List α :=
  match l[i]?, l[j]? with
  | some x, some y => (l.set i y).set j x
  | _, _ => l

/-- The Fisher-Yates loop of `buildDueQueue` (`src/app.js` lines 190-193),
run for indices `i, i-1, ..., 1`; `Math.floor(Math.random() * (i + 1))`
is modelled by `rand i % (i + 1)`. -/
def fyStep {α : Type} (rand : Nat → Nat) : Nat → List α → List α
  | 0, l => l
  | i + 1, l => fyStep rand i (listSwap l (i + 1) (rand (i + 1) % (i + 2)))

/-- The complete shuffle: the loop starts at `due.length - 1`. -/
def fyShuffle {α : Type} (rand : Nat → Nat) (l : List α) : List α :=
  fyStep rand (l.length - 1) l

/-- The record `buildDueQueue` consults for the catalog entry at position
`i`: the stored record if present, else a fresh `defaultProgress` whose
`nowMs()` call is modelled by `defT i` (that call happens strictly after
the queue's own `ts = nowMs()` snapshot, once per missing record). -/
def recordOf (prog : String → Option ProgressRecord) (defT : Nat → Int)
    (i : Nat) (w : Word) : ProgressRecord :=
  (prog w.id).getD (defaultProgress w.id (defT i))

/-- The `due` list collected by `buildDueQueue` (`src/app.js` lines
179-187): ids of catalog entries whose record has `dueAt <= ts`. -/
def dueIds (words : List Word) (prog : String → Option ProgressRecord)
    (ts : Int) (defT : Nat → Int) : List String :=
  words.enum.filterMap fun iw =>
    if (recordOf prog defT iw.1 iw.2).dueAt ≤ ts then some iw.2.id else none

/-- `buildDueQueue(limit)` (`src/app.js` lines 175-195): collect the due
ids, Fisher-Yates shuffle them, truncate to `limit`. -/
def buildDueQueue (words : List Word) (prog : String → Option ProgressRecord)
    (ts : Int) (defT : Nat → Int) (rand : Nat → Nat) (limit : Nat) : List String :=
  (fyShuffle rand (dueIds words prog ts defT)).take limit

/-- The score `buildAnyQueue` gives a catalog word (`src/app.js` lines
201-204): its record's `dueAt`, a missing record scored as a fresh default
(in memory only, nothing persisted); `dnow` models that `nowMs()` call. -/
def scoreOf (prog : String → Option ProgressRecord) (dnow : Int) (w : Word) : Int :=
  ((prog w.id).getD (defaultProgress w.id dnow)).dueAt

/-- The comparator `(a, b) => a.score - b.score` as an ordering on
`(id, score)` pairs. -/
def scoreLE (a b : String × Int) : Prop := a.2 ≤ b.2

instance : DecidableRel scoreLE := fun a b => inferInstanceAs (Decidable (a.2 ≤ b.2))

instance : IsTotal (String × Int) scoreLE := ⟨fun a b => le_total a.2 b.2⟩

instance : IsTrans (String × Int) scoreLE := ⟨fun _ _ _ => le_trans⟩

/-- The sorted, truncated candidate pool `pickFrom` of `buildAnyQueue`
(`src/app.js` lines 201-206).  JavaScript `Array.prototype.sort` with a
numeric comparator is a stable ascending sort; a stable sort under a total
preorder is unique, so the stable `insertionSort` denotes it exactly. -/
def anyPool (words : List Word) (prog : String → Option ProgressRecord)
    (dnow : Int) : List (String × Int) :=
  let scored := List.insertionSort scoreLE
    (words.map fun w => (w.id, scoreOf prog dnow w))
  scored.take (min 800 scored.length)

/-- The rejection-sampling `while` loop of `buildAnyQueue` (`src/app.js`
lines 207-212).  The loop has no intrinsic termination bound (a random
draw can repeat indefinitely), so it is embedded with explicit `fuel`:
`none` models the run not having finished within `fuel` draws.  `rand
step % pool.length` models `Math.floor(Math.random() * pickFrom.length)`,
and `chosen.push` only fires when `!chosen.includes(id)`. -/
def sampleLoop (rand : Nat → Nat) (pool : List String) (tgt : Nat) :
    Nat → Nat → List String → Option (List String)
  | 0, _, chosen => if chosen.length < tgt then none else some chosen
  | fuel + 1, step, chosen =>
    if chosen.length < tgt then
      let idx := rand step % pool.length
      let id := pool.getD idx ""
      sampleLoop rand pool tgt fuel (step + 1)
        (if id ∈ chosen then chosen else chosen ++ [id])
    else some chosen

/-- `buildAnyQueue(limit)` (`src/app.js` lines 197-214): score and sort
the catalog, keep the `min(800, n)` lowest-scored entries, then draw
distinct ids by rejection sampling until `min(limit, pool.length)` are
collected. -/
def buildAnyQueue (words : List Word) (prog : String → Option ProgressRecord)
    (dnow : Int) (rand : Nat → Nat) (limit fuel : Nat) : Option (List String) :=
  let pickFrom := anyPool words prog dnow
  sampleLoop rand (pickFrom.map Prod.fst) (min limit pickFrom.length) fuel 0 []

/-- The two meta entries driving the streak (`src/app.js` lines 302-306,
366-386).  Calendar days (`dayKey` strings, local dates) are modelled as
integer day indices, with `dayKey(Date.now() - 86400000)` as `today - 1`;
the stored decimal string for the streak round-trips through
`parseInt(s, 10) || 0` as `Option.getD 0`. -/
structure MetaState where
  lastReviewDay : Option Int
  streak : Option Nat
  deriving DecidableEq, Repr

/-- `computeStreak()` (`src/app.js` lines 366-386). -/
def computeStreak (m : MetaState) (today : Int) : Nat :=
  let yesterday := today - 1
  match m.lastReviewDay with
  | none => 0
  | some lastDay =>
    let streak := m.streak.getD 0
    if lastDay = today then streak
    else if lastDay = yesterday then max 1 (streak + 1)
    else 1

/-- The meta/streak portion of `submitGrade` (`src/app.js` lines 302-306):
write `lastReviewDay = today`, then compute the streak, then persist it. -/
def submitGradeStreak (m : MetaState) (today : Int) : MetaState :=
  let m1 : MetaState := { m with lastReviewDay := some today }
  let s := computeStreak m1 today
  { m1 with streak := some s }

/-- The grade-dependent growth factor applied once `reps >= 2`
(`src/app.js` lines 150-152): hard scales by `ease * 0.85`, easy by
`ease * 1.15`, good by `ease`, evaluated at the already-updated ease
(the source updates `progress.ease` on line 136 before line 150 reads it). -/
def gradeFactor (e : ℚ) : Grade → ℚ
  | Grade.hard => e * 0.85
  | Grade.easy => e * 1.15
  | _ => e

/-- A concrete record used to instantiate theorems with hypotheses. -/
def sampleRec : ProgressRecord :=
  { id := "w", dueAt := 0, intervalDays := 3, ease := 2.5,
    reps := 2, total := 5, correct := 4 }

/-- A concrete due word and a progress lookup used to instantiate the
queue-builder theorems. -/
def sampleWord : Word :=
  { id := "a", spanish := "hola", english := "hi", partOfSpeech := "noun" }

def sampleProg : String → Option ProgressRecord :=
  fun _ => some (defaultProgress "a" 0)

/-- The id formula claimed by the spec: NFC of the trimmed spanish text,
then a double underscore, then the lowercased trimmed part of speech. -/
def specTrimmedId (nfc : String → String) (w : RawEntry) : String :=
  nfc (jsTrim (jsString w.spanish)) ++ "__" ++ jsToLower (jsTrim (jsOrOther w.partOfSpeech))

/-- The id formula the code actually computes (`src/app.js` line 167). -/
def untrimmedIdFormula (nfc : String → String) (w : RawEntry) : String :=
  nfc (jsString w.spanish ++ "__" ++ jsToLower (jsOrOther w.partOfSpeech))

/-- A raw entry whose spanish text carries leading whitespace. -/
def entryWhitespace : RawEntry :=
  { spanish := some " hola", english := some "hi", partOfSpeech := some "noun" }

/-- The same entry with the whitespace already trimmed. -/
def entryTrimmed : RawEntry :=
  { spanish := some "hola", english := some "hi", partOfSpeech := some "noun" }

/-- A raw entry with an unrecognized part of speech. -/
def entryXyz : RawEntry :=
  { spanish := some "hola", english := some "hi", partOfSpeech := some "xyz" }

/-- A raw entry missing every field. -/
def entryMissing : RawEntry :=
  { spanish := none, english := none, partOfSpeech := none }

/-- C1: for `reps >= 2` and a grade other than "again", `applyGrade`
multiplies `intervalDays` by the grade-dependent factor (hard:
`ease * 0.85`, good: `ease`, easy: `ease * 1.15`, at the updated ease),
floors the product at 1 day, increments `reps`, updates the ease by the
grade's delta, and sets `dueAt = now + round(intervalDays * 86400000)`;
in particular `{intervalDays: 3, reps: 2, ease: 2.5}` graded "good"
yields `intervalDays = 7.5`, `reps = 3`, `ease = 2.5`,
`dueAt = now + 648000000`. -/
theorem applyGrade_interval_growth (now : Int) (p : ProgressRecord) (g : Grade)
    (h2 : 2 ≤ p.reps) (hg : g ≠ Grade.again) :
    (applyGrade now p g).intervalDays
        = max 1 (p.intervalDays * gradeFactor (applyGrade now p g).ease g) ∧
    (applyGrade now p g).reps = p.reps + 1 ∧
    (applyGrade now p g).ease = clamp (p.ease + (if g = Grade.hard then -0.05
      else if g = Grade.good then 0.00 else 0.10)) 1.3 3.2 ∧
    (applyGrade now p g).dueAt
        = now + round ((applyGrade now p g).intervalDays * 86400000) ∧
    applyGrade 0 { id := "w", dueAt := 0, intervalDays := 3, ease := 2.5,
                   reps := 2, total := 5, correct := 4 } Grade.good =
      { id := "w", dueAt := 648000000, intervalDays := 7.5, ease := 2.5,
        reps := 3, total := 6, correct := 5 } := by
  have h0 : ¬ p.reps = 0 := by omega
  have h1 : ¬ p.reps = 1 := by omega
  refine ⟨?_, ?_, ?_, ?_, ?_⟩
  · cases g with
    | again => exact absurd rfl hg
    | hard => simp +decide [applyGrade, h0, h1, gradeFactor]
    | good => simp +decide [applyGrade, h0, h1, gradeFactor]
    | easy => simp +decide [applyGrade, h0, h1, gradeFactor]
  · cases g with
    | again => exact absurd rfl hg
    | hard => simp +decide [applyGrade, h0, h1]
    | good => simp +decide [applyGrade, h0, h1]
    | easy => simp +decide [applyGrade, h0, h1]
  · cases g with
    | again => exact absurd rfl hg
    | hard => simp +decide [applyGrade, h0, h1]
    | good => simp +decide [applyGrade, h0, h1]
    | easy => simp +decide [applyGrade, h0, h1]
  · cases g with
    | again => exact absurd rfl hg
    | hard => simp +decide [applyGrade, h0, h1]; norm_num
    | good => simp +decide [applyGrade, h0, h1]; norm_num
    | easy => simp +decide [applyGrade, h0, h1]; norm_num
  · simp +decide [applyGrade, clamp, ProgressRecord.mk.injEq, round_eq]
    norm_num [min_def, max_def]

/-- Witness for C1: the theorem applied to the concrete record
`{intervalDays: 3, reps: 2, ease: 2.5}` with grade "good" at `now = 0`. -/
theorem applyGrade_interval_growth_witness :
    (2 ≤ sampleRec.reps ∧ Grade.good ≠ Grade.again) ∧
    ((applyGrade 0 sampleRec Grade.good).intervalDays
        = max 1 (sampleRec.intervalDays
            * gradeFactor (applyGrade 0 sampleRec Grade.good).ease Grade.good) ∧
     (applyGrade 0 sampleRec Grade.good).reps = sampleRec.reps + 1 ∧
     (applyGrade 0 sampleRec Grade.good).ease
        = clamp (sampleRec.ease + (if Grade.good = Grade.hard then -0.05
            else if Grade.good = Grade.good then 0.00 else 0.10)) 1.3 3.2 ∧
     (applyGrade 0 sampleRec Grade.good).dueAt
        = 0 + round ((applyGrade 0 sampleRec Grade.good).intervalDays * 86400000) ∧
     applyGrade 0 { id := "w", dueAt := 0, intervalDays := 3, ease := 2.5,
                    reps := 2, total := 5, correct := 4 } Grade.good =
       { id := "w", dueAt := 648000000, intervalDays := 7.5, ease := 2.5,
         reps := 3, total := 6, correct := 5 }) :=
  ⟨⟨by decide, by decide⟩,
   applyGrade_interval_growth 0 sampleRec Grade.good (by decide) (by decide)⟩

/-- C2: grading "again" increments `total` but not `correct`, drops the
ease by 0.20 (clamped to `[1.3, 3.2]`), floors `reps - 1` at 0 (truncated
subtraction on `ℕ`), zeroes `intervalDays`, sets `dueAt = now + 600000`,
and skips the interval/reps growth logic entirely; a fresh default record
ends with `reps = 0`, `intervalDays = 0`, `ease = 2.30`,
`dueAt = now + 600000`. -/
theorem applyGrade_again_reset (now : Int) (p : ProgressRecord) :
    applyGrade now p Grade.again =
      { p with total := p.total + 1
               ease := clamp (p.ease - 0.20) 1.3 3.2
               reps := p.reps - 1
               intervalDays := 0
               dueAt := now + 600000 } ∧
    (∀ id t, applyGrade now (defaultProgress id t) Grade.again =
      { id := id, dueAt := now + 600000, intervalDays := 0, ease := 2.30,
        reps := 0, total := 1, correct := 0 }) := by
  constructor
  · simp +decide [applyGrade, ProgressRecord.mk.injEq]
    norm_num [sub_eq_add_neg]
  · intro id t
    simp +decide [applyGrade, defaultProgress, clamp, ProgressRecord.mk.injEq]
    norm_num [min_def, max_def]

lemma clamp_ease_mem (x : ℚ) : 1.3 ≤ clamp x 1.3 3.2 ∧ clamp x 1.3 3.2 ≤ 3.2 := by
  unfold clamp
  exact ⟨le_max_left _ _, max_le (by norm_num) (min_le_left _ _)⟩

lemma applyGrade_ease_mem (now : Int) (p : ProgressRecord) (g : Grade) :
    1.3 ≤ (applyGrade now p g).ease ∧ (applyGrade now p g).ease ≤ 3.2 := by
  cases g <;> simp +decide [applyGrade] <;> exact clamp_ease_mem _

/-- C3: starting from any ease in `[1.3, 3.2]`, the ease after any finite
sequence of grades stays in `[1.3, 3.2]`.  Quantifying over all grade
lists covers every intermediate step, since the state after step `k` of
`gs` is exactly `applyGrades now p (gs.take k)`. -/
theorem ease_stays_bounded (now : Int) (p : ProgressRecord) (gs : List Grade)
    (hlo : 1.3 ≤ p.ease) (hhi : p.ease ≤ 3.2) :
    1.3 ≤ (applyGrades now p gs).ease ∧ (applyGrades now p gs).ease ≤ 3.2 := by
  induction gs generalizing p with
  | nil => exact ⟨hlo, hhi⟩
  | cons g gs ih =>
    have h := applyGrade_ease_mem now p g
    exact ih (applyGrade now p g) h.1 h.2

lemma ease_default_lb : (1.3 : ℚ) ≤ 2.5 := by norm_num

lemma ease_default_ub : (2.5 : ℚ) ≤ 3.2 := by norm_num

/-- Witness for C3: starting ease 2.5, grade sequence good, again, easy. -/
theorem ease_stays_bounded_witness :
    ((1.3 : ℚ) ≤ sampleRec.ease ∧ sampleRec.ease ≤ 3.2) ∧
    (1.3 ≤ (applyGrades 0 sampleRec [Grade.good, Grade.again, Grade.easy]).ease ∧
     (applyGrades 0 sampleRec [Grade.good, Grade.again, Grade.easy]).ease ≤ 3.2) :=
  ⟨⟨ease_default_lb, ease_default_ub⟩,
   ease_stays_bounded 0 sampleRec [Grade.good, Grade.again, Grade.easy]
     ease_default_lb ease_default_ub⟩

/-- C10: `applyGrade` never touches the `id` field, preserves
`correct <= total`, and always leaves `intervalDays >= 0`. -/
theorem applyGrade_frame (now : Int) (p : ProgressRecord) (g : Grade)
    (h : p.correct ≤ p.total) :
    (applyGrade now p g).id = p.id ∧
    (applyGrade now p g).correct ≤ (applyGrade now p g).total ∧
    0 ≤ (applyGrade now p g).intervalDays := by
  refine ⟨?_, ?_, ?_⟩
  · cases g <;> simp +decide [applyGrade]
  · cases g <;> simp +decide [applyGrade] <;> omega
  · cases g with
    | again => simp +decide [applyGrade]
    | hard =>
      simp +decide [applyGrade]
      by_cases hr0 : p.reps = 0 <;> by_cases hr1 : p.reps = 1 <;> simp [hr0, hr1]
    | good =>
      simp +decide [applyGrade]
      by_cases hr0 : p.reps = 0 <;> by_cases hr1 : p.reps = 1 <;> simp [hr0, hr1]
    | easy =>
      simp +decide [applyGrade]
      by_cases hr0 : p.reps = 0 <;> by_cases hr1 : p.reps = 1 <;> simp [hr0, hr1]

/-- Witness for C10: the frame property at a concrete record and grade. -/
theorem applyGrade_frame_witness :
    sampleRec.correct ≤ sampleRec.total ∧
    ((applyGrade 0 sampleRec Grade.easy).id = sampleRec.id ∧
     (applyGrade 0 sampleRec Grade.easy).correct
        ≤ (applyGrade 0 sampleRec Grade.easy).total ∧
     0 ≤ (applyGrade 0 sampleRec Grade.easy).intervalDays) :=
  ⟨by decide, applyGrade_frame 0 sampleRec Grade.easy (by decide)⟩

/-- C4 (code bug): the streak the graded-review flow persists never
changes.  `submitGrade` writes `lastReviewDay = today` (line 304) before
`computeStreak` reads it (line 305), so `computeStreak` always takes its
`lastDay === today` branch and returns the stored streak unchanged; its
own comments (lines 368-371: yesterday gives +1, otherwise reset to 1 when
you review today) describe branches that are unreachable from this call
site.  A first-ever review therefore persists streak 0 (the claim and the
spec say 1), and reviews on consecutive days stay at 0 forever. -/
theorem submitGrade_streak_stuck :
    (∀ m today, (submitGradeStreak m today).streak = some (m.streak.getD 0)) ∧
    (submitGradeStreak { lastReviewDay := none, streak := none } 0).streak = some 0 ∧
    (submitGradeStreak (submitGradeStreak { lastReviewDay := none, streak := none } 0) 1).streak
      = some 0 := by
  refine ⟨fun m today => ?_, by decide, by decide⟩
  simp [submitGradeStreak, computeStreak]

lemma mem_of_mem_listSwap {α : Type} {x : α} {l : List α} {i j : Nat}
    (h : x ∈ listSwap l i j) : x ∈ l := by
  unfold listSwap at h
  split at h
  · next y z hi hj =>
    rcases List.mem_or_eq_of_mem_set h with h1 | rfl
    · rcases List.mem_or_eq_of_mem_set h1 with h2 | rfl
      · exact h2
      · exact List.getElem?_mem hj
    · exact List.getElem?_mem hi
  · exact h

lemma mem_of_mem_fyStep {α : Type} (rand : Nat → Nat) :
    ∀ (n : Nat) {x : α} {l : List α}, x ∈ fyStep rand n l → x ∈ l
  | 0, _, _, h => h
  | n + 1, _, _, h => mem_of_mem_listSwap (mem_of_mem_fyStep rand n h)

lemma mem_dueIds {words : List Word} {prog : String → Option ProgressRecord}
    {ts : Int} {defT : Nat → Int} {x : String}
    (h : x ∈ dueIds words prog ts defT) :
    ∃ iw ∈ words.enum, iw.2.id = x ∧ (recordOf prog defT iw.1 iw.2).dueAt ≤ ts := by
  unfold dueIds at h
  rcases List.mem_filterMap.mp h with ⟨iw, hmem, heq⟩
  by_cases hc : (recordOf prog defT iw.1 iw.2).dueAt ≤ ts
  · rw [if_pos hc] at heq
    exact ⟨iw, hmem, Option.some.inj heq, hc⟩
  · rw [if_neg hc] at heq
    exact absurd heq (by simp)

/-- C5: every id returned by `buildDueQueue` names a catalog entry whose
consulted record (stored, or the lazily created default) was due at the
single `ts = nowMs()` snapshot; an id whose stored record has
`dueAt > ts` never appears; and the result is at most `limit` long. -/
theorem buildDueQueue_only_due (words : List Word)
    (prog : String → Option ProgressRecord) (ts : Int) (defT : Nat → Int)
    (rand : Nat → Nat) (limit : Nat) (id : String)
    (h : id ∈ buildDueQueue words prog ts defT rand limit) :
    (∃ iw ∈ words.enum, iw.2.id = id ∧ (recordOf prog defT iw.1 iw.2).dueAt ≤ ts) ∧
    (∀ p, prog id = some p → p.dueAt ≤ ts) ∧
    (buildDueQueue words prog ts defT rand limit).length ≤ limit := by
  have hdue : id ∈ dueIds words prog ts defT :=
    mem_of_mem_fyStep rand _ (List.mem_of_mem_take h)
  obtain ⟨iw, hmem, hid, hle⟩ := mem_dueIds hdue
  refine ⟨⟨iw, hmem, hid, hle⟩, ?_, ?_⟩
  · intro p hp
    unfold recordOf at hle
    rw [hid, hp] at hle
    simpa using hle
  · exact List.length_take_le _ _

/-- Witness for C5: a one-word catalog whose stored record is due. -/
theorem buildDueQueue_only_due_witness :
    ("a" ∈ buildDueQueue [sampleWord] sampleProg 0 (fun _ => 0) (fun _ => 0) 5) ∧
    ((∃ iw ∈ [sampleWord].enum, iw.2.id = "a" ∧
        (recordOf sampleProg (fun _ => 0) iw.1 iw.2).dueAt ≤ 0) ∧
     (∀ p, sampleProg "a" = some p → p.dueAt ≤ 0) ∧
     (buildDueQueue [sampleWord] sampleProg 0 (fun _ => 0) (fun _ => 0) 5).length ≤ 5) :=
  ⟨by decide, buildDueQueue_only_due [sampleWord] sampleProg 0 (fun _ => 0)
    (fun _ => 0) 5 "a" (by decide)⟩

lemma sampleLoop_sound (rand : Nat → Nat) (pool : List String) (tgt : Nat)
    (htgt : tgt ≤ pool.length) :
    ∀ (fuel step : Nat) (chosen res : List String),
      sampleLoop rand pool tgt fuel step chosen = some res →
      chosen.Nodup → (∀ x ∈ chosen, x ∈ pool) → chosen.length ≤ tgt →
      res.Nodup ∧ (∀ x ∈ res, x ∈ pool) ∧ res.length = tgt := by
  intro fuel
  induction fuel with
  | zero =>
    intro step chosen res h hnd hsub hlen
    simp only [sampleLoop] at h
    by_cases hc : chosen.length < tgt
    · rw [if_pos hc] at h
      exact absurd h (by simp)
    · rw [if_neg hc] at h
      obtain rfl := Option.some.inj h
      exact ⟨hnd, hsub, by omega⟩
  | succ fuel ih =>
    intro step chosen res h hnd hsub hlen
    simp only [sampleLoop] at h
    by_cases hc : chosen.length < tgt
    · rw [if_pos hc] at h
      have hpoollen : 0 < pool.length := by omega
      have hidx : rand step % pool.length < pool.length := Nat.mod_lt _ hpoollen
      have hidmem : pool.getD (rand step % pool.length) "" ∈ pool := by
        rw [List.getD_eq_getElem?_getD, List.getElem?_eq_getElem hidx]
        exact List.getElem_mem hidx
      by_cases hmem : pool.getD (rand step % pool.length) "" ∈ chosen
      · rw [if_pos hmem] at h
        exact ih _ _ _ h hnd hsub (le_of_lt hc)
      · rw [if_neg hmem] at h
        have hdisj : chosen.Disjoint [pool.getD (rand step % pool.length) ""] := by
          intro a ha hb
          rw [List.mem_singleton] at hb
          subst hb
          exact hmem ha
        refine ih _ _ _ h ?_ ?_ ?_
        · exact List.nodup_append.mpr ⟨hnd, List.nodup_singleton _, hdisj⟩
        · intro x hx
          rcases List.mem_append.mp hx with h1 | h1
          · exact hsub x h1
          · rw [List.mem_singleton] at h1
            subst h1
            exact hidmem
        · rw [List.length_append]
          simp only [List.length_singleton]
          omega
    · rw [if_neg hc] at h
      obtain rfl := Option.some.inj h
      exact ⟨hnd, hsub, by omega⟩

/-- C6: whenever the rejection-sampling loop of `buildAnyQueue` finishes
(`some res`), the returned ids are pairwise distinct, there are exactly
`min(limit, pool size)` of them, each belongs to the candidate pool, the
pool has `min(800, catalog size)` entries, and the pool is sorted by
score, i.e. consists of the lowest-`dueAt` entries.  This holds for every
random stream and even without assuming catalog ids are distinct. -/
theorem buildAnyQueue_distinct (words : List Word)
    (prog : String → Option ProgressRecord) (dnow : Int) (rand : Nat → Nat)
    (limit fuel : Nat) (res : List String)
    (h : buildAnyQueue words prog dnow rand limit fuel = some res) :
    res.Nodup ∧
    res.length = min limit (anyPool words prog dnow).length ∧
    (∀ id ∈ res, id ∈ (anyPool words prog dnow).map Prod.fst) ∧
    (anyPool words prog dnow).length = min 800 words.length ∧
    (anyPool words prog dnow).Pairwise scoreLE := by
  unfold buildAnyQueue at h
  have htgt : min limit (anyPool words prog dnow).length
      ≤ ((anyPool words prog dnow).map Prod.fst).length := by
    rw [List.length_map]
    exact min_le_right _ _
  obtain ⟨hnd, hsub, hexact⟩ :=
    sampleLoop_sound rand _ _ htgt fuel 0 [] res h List.nodup_nil (by simp) (by simp)
  refine ⟨hnd, hexact, hsub, ?_, ?_⟩
  · unfold anyPool
    simp only [List.length_take, List.length_insertionSort, List.length_map]
    omega
  · unfold anyPool
    exact List.Pairwise.sublist (List.take_sublist _ _)
      (List.sorted_insertionSort scoreLE _)

/-- Witness for C6: a singleton catalog, limit 1, fuel 3. -/
theorem buildAnyQueue_distinct_witness :
    (buildAnyQueue [sampleWord] (fun _ => none) 0 (fun _ => 0) 1 3 = some ["a"]) ∧
    (["a"].Nodup ∧
     (["a"] : List String).length = min 1 (anyPool [sampleWord] (fun _ => none) 0).length ∧
     (∀ id ∈ (["a"] : List String), id ∈ (anyPool [sampleWord] (fun _ => none) 0).map Prod.fst) ∧
     (anyPool [sampleWord] (fun _ => none) 0).length = min 800 ([sampleWord] : List Word).length ∧
     (anyPool [sampleWord] (fun _ => none) 0).Pairwise scoreLE) :=
  ⟨by decide, buildAnyQueue_distinct [sampleWord] (fun _ => none) 0 (fun _ => 0) 1 3 ["a"] (by decide)⟩

/-- C7 counterexample: the claim says an entry whose spanish text carries
leading whitespace derives the same id as its trimmed form; the code
(line 167) interpolates the untrimmed text, so the derived id keeps the
space.  `nfc` is instantiated with `id`, faithful to NFC on these ASCII
strings. -/
theorem toWord_id_not_trimmed :
    (toWord id entryWhitespace).id ≠ specTrimmedId id entryWhitespace := by decide

/-- C7 amended: the derived id is NFC applied to the *untrimmed* spanish
text, `"__"`, and the lowercased *untrimmed* part of speech (missing or
empty part of speech becoming "other"); whitespace-carrying entries
therefore derive ids different from their trimmed forms. -/
theorem toWord_id_untrimmed (nfc : String → String) (w : RawEntry) :
    (toWord nfc w).id = untrimmedIdFormula nfc w ∧
    (toWord id entryWhitespace).id ≠ (toWord id entryTrimmed).id :=
  ⟨rfl, by decide⟩

/-- C9 counterexample: the claim says an unrecognized part of speech
normalizes to "other"; the code (line 170) performs no membership check
against `POS_ALL`, so "xyz" survives and lies outside the enumerated
set. -/
theorem toWord_pos_not_enumerated :
    (toWord id entryXyz).partOfSpeech ∉ POS_ALL := by decide

/-- C9 amended: a missing or empty `partOfSpeech` normalizes to "other";
any other value is only trimmed and lowercased, with no membership check
against the enumerated set. -/
theorem toWord_pos_normalization (nfc : String → String) (s e : Option String) :
    (toWord nfc { spanish := s, english := e, partOfSpeech := none }).partOfSpeech
      = "other" ∧
    (toWord nfc { spanish := s, english := e, partOfSpeech := some "" }).partOfSpeech
      = "other" ∧
    (∀ ps,
      (toWord nfc { spanish := s, english := e, partOfSpeech := some ps }).partOfSpeech
      = if ps = "" then "other" else jsToLower (jsTrim ps)) := by
  refine ⟨rfl, rfl, fun ps => ?_⟩
  by_cases hps : ps = ""
  · subst hps
    simp only [toWord, jsOrOther, if_pos rfl]
    decide
  · simp [toWord, jsOrOther, hps]

/-- C8 counterexample: the claim says loading fails when an entry is
missing a required field; the code instead coerces the missing fields
with `String(undefined)`, yielding the literal string "undefined" and a
successful load. -/
theorem loadWords_missing_fields_no_error :
    loadWords id (.value (.arr [entryMissing]))
      = .ok [{ id := "undefined__other", spanish := "undefined",
               english := "undefined", partOfSpeech := "other" }] := rfl

/-- C8 amended: `loadWords` fails exactly when the source is unreachable
(fetch rejects), the body is not valid JSON (`resp.json()` rejects), or
the JSON value is not an array (`raw.map` throws); an array always loads
in full, with no per-entry validation of required fields. -/
theorem loadWords_failure_modes (nfc : String → String) :
    loadWords nfc FetchResult.networkError = .error .network ∧
    loadWords nfc FetchResult.parseError = .error .parse ∧
    loadWords nfc (.value .nonArray) = .error .typeError ∧
    (∀ entries, loadWords nfc (.value (.arr entries))
        = .ok (entries.map (toWord nfc))) :=
  ⟨rfl, rfl, rfl, fun _ => rfl⟩
